import Mathlib

/-!
Verification of the task/timer state machine of the jQuery task manager
(`script.js`, timer-enriched variant).  The definitions below are a shallow
embedding of the JavaScript source: module-level mutable state (`tasks`,
`taskId`, the `localStorage` slot at `STORAGE_KEY`) becomes an explicit
`AppState` record threaded through the operations, `Date.now()` becomes an
explicit `now : Int` parameter (milliseconds), and JavaScript strings/numbers
become `String`/`Nat`/`Int`.  Fields that the persisted JSON may lack are
`Option`s in `StoredTask`; a JSON text that fails to parse is the
`StoreVal.corrupt` constructor.
-/

namespace TaskMgr

/-- A task record, exactly the fields built by `createTask` in the source. -/
structure Task where
  id : Nat
  text : String
  completed : Bool
  createdAt : Int
  timerSeconds : Nat
  timerRemainingSeconds : Nat
  timerEnd : Option Int
  incomplete : Bool
deriving DecidableEq

/-- A record as it sits in the persisted JSON array.  Fields that older
persisted items may be missing are `Option`s; `JSON.parse` of a saved
collection yields one of these per task. -/
structure StoredTask where
  id : Nat
  text : String
  completed : Option Bool
  createdAt : Option Int
  timerSeconds : Option Nat
  timerRemainingSeconds : Option Nat
  timerEnd : Option Int
  incomplete : Option Bool
deriving DecidableEq

/-- The string under `STORAGE_KEY`: either a JSON array of records or a text
on which `JSON.parse` throws. -/
inductive StoreVal where
  | corrupt : StoreVal
  | data : List StoredTask → StoreVal
deriving DecidableEq

/-- The module-level mutable state of the script: the `tasks` array, the
`taskId` counter and the `localStorage` slot (none = key absent). -/
structure AppState where
  tasks : List Task
  taskId : Nat
  store : Option StoreVal
deriving DecidableEq

def MAX_TASKS : Nat := 100

/-- JavaScript whitespace characters removed by `String.prototype.trim`
(the common ones that fit the source's inputs). -/
def isJsSpace (c : Char) : Bool :=
  c = ' ' || c = '\t' || c = '\n' || c = '\r' || c = '\x0b' || c = '\x0c'

/-- `text.trim()` of the source, embedded over the character list. -/
def jsTrim (s : String) : String :=
  String.mk (((s.data.dropWhile isJsSpace).reverse.dropWhile isJsSpace).reverse)

/-- `text.toLowerCase()` of the source, embedded over the character list. -/
def jsToLower (s : String) : String :=
  String.mk (s.data.map Char.toLower)

/-- Truthiness of the nullable millisecond timestamp `task.timerEnd`
(`null` and `0` are falsy in JavaScript). -/
def jsTruthyEnd : Option Int → Bool
  | none => false
  | some e => e != 0

/-- `Math.round(a / 1000)` for an integer millisecond delta `a`:
JavaScript rounds half toward positive infinity, i.e. floor(a/1000 + 1/2).
`Int` division `/` is euclidean division, which is floor division for the
positive divisor 1000. -/
def jsRound1000 (a : Int) : Int := (a + 500) / 1000

/-- `createTask` (source lines 29-42).  `++taskId` is modelled by passing the
current counter and letting the caller store `nextId + 1` back. -/
def createTask (nextId : Nat) (text : String) (timerSeconds : Nat) (now : Int) : Task :=
  { id := nextId + 1
    text := text
    completed := false
    createdAt := now
    timerSeconds := timerSeconds
    timerRemainingSeconds := timerSeconds
    timerEnd := if timerSeconds > 0 then some (now + (timerSeconds : Int) * 1000) else none
    incomplete := false }

/-- `JSON.stringify` of one task: every field is present in the output. -/
def toStored (t : Task) : StoredTask :=
  { id := t.id
    text := t.text
    completed := some t.completed
    createdAt := some t.createdAt
    timerSeconds := some t.timerSeconds
    timerRemainingSeconds := some t.timerRemainingSeconds
    timerEnd := t.timerEnd
    incomplete := some t.incomplete }

/-- `saveTasks` (source lines 82-91): overwrite the storage slot with the
serialized collection. -/
def saveTasks (st : AppState) : AppState :=
  { st with store := some (StoreVal.data (st.tasks.map toStored)) }

/-- The `t.timerEnd || null` normalization in `loadTasks`: an absent or
falsy (0) timestamp becomes null. -/
def normTimerEnd : Option Int → Option Int
  | none => none
  | some e => if e = 0 then none else some e

/-- The per-record normalization in `loadTasks` (source lines 56-65):
`!!t.completed`, `t.createdAt ? ... : new Date()`, `t.timerSeconds || 0`,
the `typeof t.timerRemainingSeconds !== 'undefined'` fallback,
`t.timerEnd || null` and `!!t.incomplete`. -/
def normalizeStored (now : Int) (r : StoredTask) : Task :=
  { id := r.id
    text := r.text
    completed := r.completed.getD false
    createdAt := r.createdAt.getD now
    timerSeconds := r.timerSeconds.getD 0
    timerRemainingSeconds := r.timerRemainingSeconds.getD (r.timerSeconds.getD 0)
    timerEnd := normTimerEnd r.timerEnd
    incomplete := r.incomplete.getD false }

/-- `Math.max(...tasks.map(t => t.id))` over the loaded collection. -/
def maxId (ts : List Task) : Nat := ts.foldl (fun m t => max m t.id) 0

/-- `loadTasks` (source lines 47-79).  A missing key leaves the state alone;
a parse failure is caught and resets `tasks` to `[]` (the counter is only
reassigned when the loaded collection is non-empty). -/
def loadTasks (st : AppState) (now : Int) : AppState :=
  match st.store with
  | none => st
  | some StoreVal.corrupt => { st with tasks := [] }
  | some (StoreVal.data records) =>
    let ts := records.map (normalizeStored now)
    { st with
      tasks := ts
      taskId := if ts.length > 0 then maxId ts else st.taskId }

/-- The five validation failures of `addTask`, in source order, identified by
the error message each branch surfaces. -/
inductive ValidationError where
  | Empty
  | TooShort
  | TooLong
  | LimitReached
  | Duplicate
deriving DecidableEq

/-- The duplicate check of `addTask` (source line 157). -/
def isDuplicate (ts : List Task) (trimmedText : String) : Bool :=
  ts.any (fun t => jsToLower t.text == jsToLower trimmedText)

/-- `addTask` (source lines 128-173).  The boolean result of the source is
refined into `Option ValidationError` naming which validation branch
returned `false`; the first component is the state after the call.  The
timer minutes input `parseInt($('#taskTimer').val(), 10) || 0` is the
`minutes` parameter. -/
def addTask (st : AppState) (text : String) (minutes : Int) (now : Int) :
    AppState × Option ValidationError :=
  let trimmedText := jsTrim text
  if trimmedText = "" then (st, some ValidationError.Empty)
  else if trimmedText.length < 3 then (st, some ValidationError.TooShort)
  else if trimmedText.length > 200 then (st, some ValidationError.TooLong)
  else if st.tasks.length ≥ MAX_TASKS then (st, some ValidationError.LimitReached)
  else if isDuplicate st.tasks trimmedText then (st, some ValidationError.Duplicate)
  else
    let seconds := if minutes > 0 then minutes.toNat * 60 else 0
    let task := createTask st.taskId trimmedText seconds now
    (saveTasks { st with tasks := st.tasks ++ [task], taskId := st.taskId + 1 }, none)

/-- `deleteTask` (source lines 176-179). -/
def deleteTask (st : AppState) (id : Nat) : AppState :=
  saveTasks { st with tasks := st.tasks.filter (fun t => t.id ≠ id) }

/-- In-place mutation of the task returned by `tasks.find(...)`: the first
element whose id matches is replaced, the rest of the array is untouched. -/
def replaceFirst (ts : List Task) (id : Nat) (x : Task) : List Task :=
  match ts with
  | [] => []
  | t :: rest => if t.id == id then x :: rest else t :: replaceFirst rest id x

/-- `toggleTask` (source lines 182-195). -/
def toggleTask (st : AppState) (id : Nat) : AppState :=
  match st.tasks.find? (fun t => t.id == id) with
  | none => st
  | some task =>
    let task1 :=
      if task.completed then { task with completed := false }
      else
        { task with
          completed := true
          incomplete := false
          timerEnd := none
          timerRemainingSeconds := 0 }
    saveTasks { st with tasks := replaceFirst st.tasks id task1 }

/-- The value a call to the source's `toggleTask` evaluates to: the arrow
function body has no `return` statement, so every call - with a matching id
or not - yields `undefined` (here `none`). -/
def toggleTaskReturn (_st : AppState) (_id : Nat) : Option Bool := none

/-- `clearCompleted` (source lines 198-201). -/
def clearCompleted (st : AppState) : AppState :=
  saveTasks { st with tasks := st.tasks.filter (fun t => !t.completed) }

/-- `startTimer` (source lines 217-230).  When the guards pass and the
(possibly reset) remaining duration is positive, the task is mutated and the
collection saved; otherwise nothing changes. -/
def startTimer (st : AppState) (id : Nat) (now : Int) : AppState :=
  match st.tasks.find? (fun t => t.id == id) with
  | none => st
  | some task =>
    if task.completed || task.incomplete then st
    else if jsTruthyEnd task.timerEnd then st
    else
      let rem :=
        if task.timerRemainingSeconds == 0 && task.timerSeconds != 0 then
          task.timerSeconds
        else task.timerRemainingSeconds
      if rem > 0 then
        saveTasks
          { st with
            tasks := replaceFirst st.tasks id
              { task with
                timerRemainingSeconds := rem
                timerEnd := some (now + (rem : Int) * 1000) } }
      else st

/-- `pauseTimer` (source lines 233-241). -/
def pauseTimer (st : AppState) (id : Nat) (now : Int) : AppState :=
  match st.tasks.find? (fun t => t.id == id) with
  | none => st
  | some task =>
    if task.completed || task.incomplete then st
    else if !jsTruthyEnd task.timerEnd then st
    else
      let e := task.timerEnd.getD 0
      let remaining := (max 0 (jsRound1000 (e - now))).toNat
      saveTasks
        { st with
          tasks := replaceFirst st.tasks id
            { task with timerRemainingSeconds := remaining, timerEnd := none } }

/-- `resetTimer` (source lines 244-251): no guard beyond existence of the id;
restores the original duration, stops the timer, clears the sticky flag. -/
def resetTimer (st : AppState) (id : Nat) : AppState :=
  match st.tasks.find? (fun t => t.id == id) with
  | none => st
  | some task =>
    saveTasks
      { st with
        tasks := replaceFirst st.tasks id
          { task with
            timerRemainingSeconds := task.timerSeconds
            timerEnd := none
            incomplete := false } }

/-- The mutation `checkTimers` applies to an expiring task. -/
def expireNow (t : Task) : Task :=
  { t with incomplete := true, timerEnd := none, timerRemainingSeconds := 0 }

/-- The body of the `checkTimers` loop for a single task (source lines
488-500): the guard `task.timerEnd && !task.completed && !task.incomplete`
followed by `now >= task.timerEnd`; an expiring task also produces its toast
message. -/
def checkOne (now : Int) (t : Task) : Task × Option String :=
  match t.timerEnd with
  | none => (t, none)
  | some e =>
    if e ≠ 0 ∧ t.completed = false ∧ t.incomplete = false ∧ e ≤ now then
      (expireNow t, some ("Timer expired: " ++ t.text))
    else (t, none)

/-- `checkTimers` (source lines 485-511): sweep every task, collect the toast
notifications in order, and save only when something changed. -/
def checkTimers (st : AppState) (now : Int) : AppState × List String :=
  let results := st.tasks.map (checkOne now)
  let newTasks := results.map Prod.fst
  let toasts := results.filterMap Prod.snd
  let changed := results.any (fun r => r.2.isSome)
  let st1 := { st with tasks := newTasks }
  (if changed then saveTasks st1 else st1, toasts)

/-! ### Helper lemmas -/

theorem mem_replaceFirst {ts : List Task} {id : Nat} {x t' : Task}
    (h : t' ∈ replaceFirst ts id x) : t' ∈ ts ∨ t' = x := by
  induction ts with
  | nil => simp [replaceFirst] at h
  | cons t rest ih =>
    simp only [replaceFirst] at h
    by_cases hc : (t.id == id) = true
    · rw [if_pos hc] at h
      rcases List.mem_cons.mp h with h1 | h1
      · exact Or.inr h1
      · exact Or.inl (List.mem_cons_of_mem _ h1)
    · rw [if_neg hc] at h
      rcases List.mem_cons.mp h with h1 | h1
      · exact Or.inl (h1 ▸ List.mem_cons_self _ _)
      · rcases ih h1 with h2 | h2
        · exact Or.inl (List.mem_cons_of_mem _ h2)
        · exact Or.inr h2

theorem find?_replaceFirst {ts : List Task} {id : Nat} {task x : Task}
    (hf : ts.find? (fun t => t.id == id) = some task) (hx : x.id = id) :
    (replaceFirst ts id x).find? (fun t => t.id == id) = some x := by
  induction ts with
  | nil => simp [List.find?] at hf
  | cons t rest ih =>
    by_cases hc : (t.id == id) = true
    · simp only [replaceFirst, if_pos hc]
      have : (x.id == id) = true := by simp [hx]
      simp [List.find?, this]
    · simp only [replaceFirst, if_neg hc]
      rw [List.find?_cons_of_neg _ (by simpa using hc)] at hf
      rw [List.find?_cons_of_neg _ (by simpa using hc)]
      exact ih hf

theorem map_replaceFirst {α : Type} (f : Task → α) {ts : List Task} {id : Nat}
    {task x : Task}
    (hf : ts.find? (fun t => t.id == id) = some task) (hfx : f task = f x) :
    (replaceFirst ts id x).map f = ts.map f := by
  induction ts with
  | nil => simp [List.find?] at hf
  | cons t rest ih =>
    by_cases hc : (t.id == id) = true
    · rw [@List.find?_cons_of_pos _ (fun t => t.id == id) t rest hc] at hf
      have ht : task = t := by injection hf with h; exact h.symm
      simp only [replaceFirst, if_pos hc, List.map]
      rw [← hfx, ht]
    · simp only [replaceFirst, if_neg hc, List.map]
      rw [List.find?_cons_of_neg _ (by simpa using hc)] at hf
      rw [ih hf]

theorem find?_id_eq {ts : List Task} {id : Nat} {task : Task}
    (hf : ts.find? (fun t => t.id == id) = some task) : task.id = id := by
  have := List.find?_some hf
  simpa using this

theorem mem_of_find? {ts : List Task} {id : Nat} {task : Task}
    (hf : ts.find? (fun t => t.id == id) = some task) : task ∈ ts :=
  List.mem_of_find?_eq_some hf

theorem jsRound1000_le {a : Int} {S : Nat} (h : a ≤ (S : Int) * 1000) :
    jsRound1000 a ≤ (S : Int) := by
  unfold jsRound1000
  have h2 : a + 500 ≤ (S : Int) * 1000 + 500 := by omega
  have h3 := Int.ediv_le_ediv (by decide : (0 : Int) < 1000) h2
  have h4 : ((S : Int) * 1000 + 500) / 1000 = (S : Int) := by
    rw [add_comm, Int.add_mul_ediv_right 500 (S : Int) (by decide : (1000 : Int) ≠ 0)]
    norm_num
  rwa [h4] at h3

theorem jsRound1000_nonpos {a : Int} (h : a ≤ 0) : jsRound1000 a ≤ 0 := by
  have h0 : jsRound1000 a ≤ ((0 : Nat) : Int) := jsRound1000_le (by omega)
  simpa using h0

theorem max_toNat_le {x : Int} {S : Nat} (h : x ≤ (S : Int)) :
    (max 0 x).toNat ≤ S := by
  rcases le_total x 0 with hx | hx
  · rw [max_eq_left hx]; simp
  · rw [max_eq_right hx]; exact Int.toNat_le.mpr h

theorem max_toNat_zero {x : Int} (h : x ≤ 0) : (max 0 x).toNat = 0 := by
  rw [max_eq_left h]; simp

theorem foldl_max_init_le : ∀ (ts : List Task) (a : Nat),
    a ≤ ts.foldl (fun m t => max m t.id) a := by
  intro ts
  induction ts with
  | nil => intro a; exact le_refl a
  | cons t rest ih =>
    intro a
    calc a ≤ max a t.id := le_max_left _ _
    _ ≤ rest.foldl (fun m t => max m t.id) (max a t.id) := ih _

theorem foldl_max_le : ∀ (ts : List Task) (a : Nat), ∀ t ∈ ts,
    t.id ≤ ts.foldl (fun m t => max m t.id) a := by
  intro ts
  induction ts with
  | nil => intro a t ht; simp at ht
  | cons u rest ih =>
    intro a t ht
    rcases List.mem_cons.mp ht with h | h
    · subst h
      calc t.id ≤ max a t.id := le_max_right _ _
      _ ≤ rest.foldl (fun m t => max m t.id) (max a t.id) := foldl_max_init_le _ _
    · exact ih (max a u.id) t h

theorem le_maxId (ts : List Task) (t : Task) (ht : t ∈ ts) : t.id ≤ maxId ts :=
  foldl_max_le ts 0 t ht

theorem foldl_max_cases : ∀ (ts : List Task) (a : Nat),
    ts.foldl (fun m t => max m t.id) a = a
    ∨ ∃ t ∈ ts, ts.foldl (fun m t => max m t.id) a = t.id := by
  intro ts
  induction ts with
  | nil => intro a; exact Or.inl rfl
  | cons u rest ih =>
    intro a
    rcases ih (max a u.id) with h | ⟨t, ht, heq⟩
    · rcases le_total a u.id with hle | hle
      · right
        exact ⟨u, List.mem_cons_self _ _, by simpa [max_eq_right hle] using h⟩
      · left
        simpa [max_eq_left hle] using h
    · right
      exact ⟨t, List.mem_cons_of_mem _ ht, heq⟩

theorem maxId_attained (ts : List Task) (h : 0 < ts.length) :
    ∃ t ∈ ts, t.id = maxId ts := by
  rcases foldl_max_cases ts 0 with h0 | ⟨t, ht, heq⟩
  · cases ts with
    | nil => simp at h
    | cons u rest =>
      refine ⟨u, List.mem_cons_self _ _, ?_⟩
      have hle := le_maxId (u :: rest) u (List.mem_cons_self _ _)
      have : maxId (u :: rest) = 0 := h0
      omega
  · exact ⟨t, ht, heq.symm⟩

theorem normalize_toStored (now : Int) (t : Task) :
    normalizeStored now (toStored t) = { t with timerEnd := normTimerEnd t.timerEnd } := by
  simp [normalizeStored, toStored]

theorem trim_ne_empty_of_len {text : String} (h : 3 ≤ (jsTrim text).length) :
    jsTrim text ≠ "" := by
  intro hh
  rw [hh] at h
  simp at h

/-! ### Claim theorems -/

/-- C2: `addTask` trims its input and validates fail-fast in source order -
empty, then trimmed length < 3, then trimmed length > 200, then collection
size ≥ 100, then case-insensitive duplicate - returning the first failing
rule's error; on every validation failure the whole state (collection and
storage) is unchanged. -/
theorem addTask_validation_order (st : AppState) (text : String) (minutes : Int)
    (now : Int) :
    (jsTrim text = "" → addTask st text minutes now = (st, some ValidationError.Empty))
    ∧ (jsTrim text ≠ "" → (jsTrim text).length < 3 →
        addTask st text minutes now = (st, some ValidationError.TooShort))
    ∧ (3 ≤ (jsTrim text).length → 200 < (jsTrim text).length →
        addTask st text minutes now = (st, some ValidationError.TooLong))
    ∧ (3 ≤ (jsTrim text).length → (jsTrim text).length ≤ 200 →
        MAX_TASKS ≤ st.tasks.length →
        addTask st text minutes now = (st, some ValidationError.LimitReached))
    ∧ (3 ≤ (jsTrim text).length → (jsTrim text).length ≤ 200 →
        st.tasks.length < MAX_TASKS → isDuplicate st.tasks (jsTrim text) = true →
        addTask st text minutes now = (st, some ValidationError.Duplicate))
    ∧ (∀ e, (addTask st text minutes now).2 = some e →
        (addTask st text minutes now).1 = st) := by
  refine ⟨?_, ?_, ?_, ?_, ?_, ?_⟩
  · intro h
    simp [addTask, h]
  · intro h1 h2
    simp [addTask, h1, h2]
  · intro h1 h2
    have hne := trim_ne_empty_of_len h1
    have h3 : ¬((jsTrim text).length < 3) := by omega
    simp [addTask, hne, h3, h2]
  · intro h1 h2 h
    have hne := trim_ne_empty_of_len h1
    have h3 : ¬((jsTrim text).length < 3) := by omega
    have h4 : ¬((jsTrim text).length > 200) := by omega
    simp [addTask, hne, h3, h4, h]
  · intro h1 h2 h h5
    have hne := trim_ne_empty_of_len h1
    have h3 : ¬((jsTrim text).length < 3) := by omega
    have h4 : ¬((jsTrim text).length > 200) := by omega
    have h6 : ¬(MAX_TASKS ≤ st.tasks.length) := by omega
    simp [addTask, hne, h3, h4, h6, h5]
  · intro e he
    by_cases h1 : jsTrim text = ""
    · simp [addTask, h1]
    · by_cases h2 : (jsTrim text).length < 3
      · simp [addTask, h1, h2]
      · by_cases h3 : (jsTrim text).length > 200
        · simp [addTask, h1, h2, h3]
        · by_cases h4 : st.tasks.length ≥ MAX_TASKS
          · simp [addTask, h1, h2, h3, h4]
          · by_cases h5 : isDuplicate st.tasks (jsTrim text) = true
            · simp [addTask, h1, h2, h3, h4, h5]
            · exfalso
              simp [addTask, h1, h2, h3, h4, h5] at he

/-- Witness for C2: adding the two-character text "ab" fails with `TooShort`
and leaves the state untouched. -/
theorem addTask_validation_order_witness :
    jsTrim "ab" ≠ "" ∧ (jsTrim "ab").length < 3 ∧
    addTask { tasks := [], taskId := 0, store := none } "ab" 0 0 =
      ({ tasks := [], taskId := 0, store := none }, some ValidationError.TooShort) :=
  ⟨by decide, by decide,
    (addTask_validation_order { tasks := [], taskId := 0, store := none } "ab" 0 0).2.1
      (by decide) (by decide)⟩

/-- C1: for a text whose trimmed form has length in [3, 200], with no
case-insensitive duplicate and fewer than `MAX_TASKS` tasks, `addTask`
succeeds: the timer minutes convert to `minutes * 60` seconds when positive
and 0 otherwise, the new task has id `taskId + 1` (strictly above every
previously assigned id), `completed = false`, `incomplete = false`,
`timerRemainingSeconds = timerSeconds`, `timerEnd = now + timerSeconds * 1000`
when the timer is set and null otherwise, it is appended at the end, and the
full collection is persisted. -/
theorem addTask_success (st : AppState) (text : String) (minutes : Int) (now : Int)
    (hlen3 : 3 ≤ (jsTrim text).length) (hlen200 : (jsTrim text).length ≤ 200)
    (hcount : st.tasks.length < MAX_TASKS)
    (hdup : isDuplicate st.tasks (jsTrim text) = false)
    (hids : ∀ t ∈ st.tasks, t.id ≤ st.taskId) :
    ∃ newTask : Task,
      (addTask st text minutes now).2 = none
      ∧ (addTask st text minutes now).1.tasks = st.tasks ++ [newTask]
      ∧ newTask.id = st.taskId + 1
      ∧ (∀ t ∈ st.tasks, t.id < newTask.id)
      ∧ newTask.text = jsTrim text
      ∧ newTask.completed = false
      ∧ newTask.incomplete = false
      ∧ newTask.createdAt = now
      ∧ newTask.timerSeconds = (if minutes > 0 then minutes.toNat * 60 else 0)
      ∧ newTask.timerRemainingSeconds = newTask.timerSeconds
      ∧ newTask.timerEnd =
          (if newTask.timerSeconds > 0 then
            some (now + (newTask.timerSeconds : Int) * 1000) else none)
      ∧ (addTask st text minutes now).1.taskId = st.taskId + 1
      ∧ (addTask st text minutes now).1.store =
          some (StoreVal.data ((addTask st text minutes now).1.tasks.map toStored)) := by
  have hne := trim_ne_empty_of_len hlen3
  have h3 : ¬((jsTrim text).length < 3) := by omega
  have h4 : ¬((jsTrim text).length > 200) := by omega
  have h6 : ¬(MAX_TASKS ≤ st.tasks.length) := by omega
  have heq : addTask st text minutes now =
      (saveTasks
        { st with
          tasks := st.tasks ++
            [createTask st.taskId (jsTrim text)
              (if minutes > 0 then minutes.toNat * 60 else 0) now]
          taskId := st.taskId + 1 }, none) := by
    simp [addTask, hne, h3, h4, h6, hdup]
  refine ⟨createTask st.taskId (jsTrim text)
    (if minutes > 0 then minutes.toNat * 60 else 0) now, ?_, ?_, ?_, ?_, ?_, ?_, ?_,
    ?_, ?_, ?_, ?_, ?_, ?_⟩
  · rw [heq]
  · rw [heq]; simp [saveTasks]
  · simp [createTask]
  · intro t ht
    have := hids t ht
    simp [createTask]
    omega
  · simp [createTask]
  · simp [createTask]
  · simp [createTask]
  · simp [createTask]
  · simp [createTask]
  · simp [createTask]
  · simp [createTask]
  · rw [heq]; simp [saveTasks]
  · rw [heq]; simp [saveTasks]

/-- Witness for C1: adding "buy milk" with a 1-minute timer to the empty
state at time 5000 succeeds. -/
theorem addTask_success_witness :
    (3 ≤ (jsTrim "buy milk").length ∧ (jsTrim "buy milk").length ≤ 200
      ∧ ([] : List Task).length < MAX_TASKS
      ∧ isDuplicate [] (jsTrim "buy milk") = false)
    ∧ ∃ newTask : Task,
      (addTask { tasks := [], taskId := 0, store := none } "buy milk" 1 5000).2 = none
      ∧ (addTask { tasks := [], taskId := 0, store := none } "buy milk" 1 5000).1.tasks
          = [] ++ [newTask]
      ∧ newTask.id = 0 + 1
      ∧ (∀ t ∈ ([] : List Task), t.id < newTask.id)
      ∧ newTask.text = jsTrim "buy milk"
      ∧ newTask.completed = false
      ∧ newTask.incomplete = false
      ∧ newTask.createdAt = 5000
      ∧ newTask.timerSeconds = (if (1 : Int) > 0 then (1 : Int).toNat * 60 else 0)
      ∧ newTask.timerRemainingSeconds = newTask.timerSeconds
      ∧ newTask.timerEnd =
          (if newTask.timerSeconds > 0 then
            some (5000 + (newTask.timerSeconds : Int) * 1000) else none)
      ∧ (addTask { tasks := [], taskId := 0, store := none } "buy milk" 1 5000).1.taskId
          = 0 + 1
      ∧ (addTask { tasks := [], taskId := 0, store := none } "buy milk" 1 5000).1.store
          = some (StoreVal.data
              ((addTask { tasks := [], taskId := 0, store := none }
                "buy milk" 1 5000).1.tasks.map toStored)) :=
  ⟨⟨by decide, by decide, by decide, by decide⟩,
    addTask_success { tasks := [], taskId := 0, store := none } "buy milk" 1 5000
      (by decide) (by decide) (by decide) (by decide) (by intro t ht; simp at ht)⟩

/-- C10: `loadTasks` performs no text validation or trimming - every loaded
task's text is the stored text verbatim, whatever it is. -/
theorem loadTasks_text_verbatim (st : AppState) (records : List StoredTask)
    (now : Int) (hstore : st.store = some (StoreVal.data records)) :
    (loadTasks st now).tasks.map (fun t => t.text) = records.map (fun r => r.text) := by
  simp [loadTasks, hstore, List.map_map, Function.comp, normalizeStored]

def c10Records : List StoredTask :=
  [{ id := 1, text := "", completed := none, createdAt := none, timerSeconds := none,
     timerRemainingSeconds := none, timerEnd := none, incomplete := none },
   { id := 2, text := "ab", completed := none, createdAt := none, timerSeconds := none,
     timerRemainingSeconds := none, timerEnd := none, incomplete := none },
   { id := 3, text := "dup", completed := none, createdAt := none, timerSeconds := none,
     timerRemainingSeconds := none, timerEnd := none, incomplete := none },
   { id := 4, text := "DUP", completed := none, createdAt := none, timerSeconds := none,
     timerRemainingSeconds := none, timerEnd := none, incomplete := none }]

def c10St : AppState := { tasks := [], taskId := 0, store := some (StoreVal.data c10Records) }

/-- Witness for C10: records whose texts are empty, shorter than 3
characters, or case-insensitive duplicates of each other are all loaded
verbatim. -/
theorem loadTasks_text_verbatim_witness :
    c10St.store = some (StoreVal.data c10Records)
    ∧ (loadTasks c10St 0).tasks.map (fun t => t.text) = ["", "ab", "dup", "DUP"] :=
  ⟨rfl, (loadTasks_text_verbatim c10St c10Records 0 rfl).trans (by decide)⟩

/-- C8: `loadTasks` normalizes every stored record (absent `timerSeconds` to
0, absent `timerRemainingSeconds` to the `timerSeconds` fallback, absent
`incomplete` and `completed` to false, absent `createdAt` to now), sets the
id counter to the maximum loaded id - or leaves it at its initial 0 when the
collection is empty - and on a JSON parse failure resets to an empty
collection (the embedding is a total function: the failure is caught, never
propagated). -/
theorem loadTasks_spec (st : AppState) (records : List StoredTask) (now : Int)
    (hstore : st.store = some (StoreVal.data records)) (hid : st.taskId = 0) :
    (loadTasks st now).tasks = records.map (normalizeStored now)
    ∧ (∀ r ∈ records,
        (normalizeStored now r).text = r.text
        ∧ (normalizeStored now r).timerSeconds = r.timerSeconds.getD 0
        ∧ (normalizeStored now r).timerRemainingSeconds
            = r.timerRemainingSeconds.getD (r.timerSeconds.getD 0)
        ∧ (normalizeStored now r).incomplete = r.incomplete.getD false
        ∧ (normalizeStored now r).completed = r.completed.getD false
        ∧ (normalizeStored now r).createdAt = r.createdAt.getD now)
    ∧ (records = [] → (loadTasks st now).taskId = 0)
    ∧ (records ≠ [] →
        (∀ t ∈ (loadTasks st now).tasks, t.id ≤ (loadTasks st now).taskId)
        ∧ ∃ t ∈ (loadTasks st now).tasks, t.id = (loadTasks st now).taskId)
    ∧ (∀ stc : AppState, stc.store = some StoreVal.corrupt →
        (loadTasks stc now).tasks = []) := by
  refine ⟨?_, ?_, ?_, ?_, ?_⟩
  · simp [loadTasks, hstore]
  · intro r _
    simp [normalizeStored]
  · intro hrec
    simp [loadTasks, hstore, hrec, hid]
  · intro hrec
    have hlen : 0 < (records.map (normalizeStored now)).length := by
      rw [List.length_map]
      exact List.length_pos.mpr hrec
    constructor
    · intro t ht
      simp only [loadTasks, hstore] at ht ⊢
      rw [if_pos hlen]
      exact le_maxId _ t ht
    · simp only [loadTasks, hstore]
      rw [if_pos hlen]
      exact maxId_attained (records.map (normalizeStored now)) hlen
  · intro stc hc
    simp [loadTasks, hc]

def c8Records : List StoredTask :=
  [{ id := 7, text := "legacy item", completed := none, createdAt := none,
     timerSeconds := none, timerRemainingSeconds := none, timerEnd := none,
     incomplete := none },
   { id := 3, text := "newer item", completed := some true, createdAt := some 1000,
     timerSeconds := some 60, timerRemainingSeconds := none, timerEnd := none,
     incomplete := some false }]

def c8St : AppState := { tasks := [], taskId := 0, store := some (StoreVal.data c8Records) }

/-- Witness for C8: loading two records - one missing every optional field,
one missing only `timerRemainingSeconds` - applies the documented defaults
and sets the counter to the maximum id 7. -/
theorem loadTasks_spec_witness :
    (c8St.store = some (StoreVal.data c8Records) ∧ c8St.taskId = 0)
    ∧ (loadTasks c8St 4242).tasks =
        [{ id := 7, text := "legacy item", completed := false, createdAt := 4242,
           timerSeconds := 0, timerRemainingSeconds := 0, timerEnd := none,
           incomplete := false },
         { id := 3, text := "newer item", completed := true, createdAt := 1000,
           timerSeconds := 60, timerRemainingSeconds := 60, timerEnd := none,
           incomplete := false }]
    ∧ (loadTasks c8St 4242).taskId = 7
    ∧ (loadTasks { tasks := [], taskId := 0, store := some StoreVal.corrupt } 4242).tasks
        = [] :=
  ⟨⟨rfl, rfl⟩,
    ((loadTasks_spec c8St c8Records 4242 rfl rfl).1).trans (by decide),
    by decide,
    (loadTasks_spec c8St c8Records 4242 rfl rfl).2.2.2.2
      { tasks := [], taskId := 0, store := some StoreVal.corrupt } rfl⟩

/-- C3: saving and then loading reproduces the collection.  Unconditionally
the reloaded collection is the stored one with the falsy-timestamp
normalization `timerEnd || null` applied; on any collection whose running
timestamps are non-zero (every reachable one - `timerEnd` is only ever set
to `now + remaining * 1000` with positive remaining) the round trip is the
identity on tasks: same ids, texts, completed flags and timer fields, in the
same order. -/
theorem load_save_roundtrip (st : AppState) (now : Int) :
    (loadTasks (saveTasks st) now).tasks
      = st.tasks.map (fun t => { t with timerEnd := normTimerEnd t.timerEnd })
    ∧ ((∀ t ∈ st.tasks, t.timerEnd ≠ some 0) →
        (loadTasks (saveTasks st) now).tasks = st.tasks) := by
  have h1 : (loadTasks (saveTasks st) now).tasks
      = st.tasks.map (fun t => { t with timerEnd := normTimerEnd t.timerEnd }) := by
    simp only [saveTasks, loadTasks, List.map_map]
    refine List.map_congr_left ?_
    intro t _
    exact normalize_toStored now t
  refine ⟨h1, ?_⟩
  intro hwf
  rw [h1]
  have : ∀ t ∈ st.tasks, { t with timerEnd := normTimerEnd t.timerEnd } = t := by
    intro t ht
    have he : normTimerEnd t.timerEnd = t.timerEnd := by
      cases h : t.timerEnd with
      | none => simp [normTimerEnd]
      | some e =>
        have : e ≠ 0 := by
          intro h0
          exact hwf t ht (by rw [h, h0])
        simp [normTimerEnd, this]
    rw [he]
  rw [List.map_congr_left this]
  simp

def c3St : AppState :=
  { tasks :=
      [{ id := 1, text := "buy milk", completed := false, createdAt := 5000,
         timerSeconds := 60, timerRemainingSeconds := 60, timerEnd := some 65000,
         incomplete := false },
       { id := 2, text := "done one", completed := true, createdAt := 100,
         timerSeconds := 0, timerRemainingSeconds := 0, timerEnd := none,
         incomplete := false }]
    taskId := 2
    store := none }

/-- Witness for C3: a two-task collection (one running timer, one completed)
survives the save/load round trip unchanged. -/
theorem load_save_roundtrip_witness :
    (∀ t ∈ c3St.tasks, t.timerEnd ≠ some 0)
    ∧ (loadTasks (saveTasks c3St) 9999).tasks = c3St.tasks :=
  ⟨by decide, (load_save_roundtrip c3St 9999).2 (by decide)⟩

theorem toggleTask_found {st : AppState} {id : Nat} {task : Task}
    (hf : st.tasks.find? (fun t => t.id == id) = some task) :
    toggleTask st id = saveTasks
      { st with
        tasks := replaceFirst st.tasks id
            (if task.completed then { task with completed := false }
             else
               { task with
                 completed := true
                 incomplete := false
                 timerEnd := none
                 timerRemainingSeconds := 0 }) } := by
  simp only [toggleTask, hf]

theorem startTimer_cases (st : AppState) (id : Nat) (now : Int) :
    startTimer st id now = st
    ∨ ∃ task rem, st.tasks.find? (fun t => t.id == id) = some task
        ∧ task.completed = false ∧ task.incomplete = false
        ∧ (rem = task.timerSeconds ∨ rem = task.timerRemainingSeconds)
        ∧ 0 < rem
        ∧ startTimer st id now = saveTasks
            { st with
              tasks := replaceFirst st.tasks id
                  { task with
                    timerRemainingSeconds := rem
                    timerEnd := some (now + (rem : Int) * 1000) } } := by
  cases hf : st.tasks.find? (fun t => t.id == id) with
  | none => exact Or.inl (by simp [startTimer, hf])
  | some task =>
    by_cases hg1 : (task.completed || task.incomplete) = true
    · exact Or.inl (by simp [startTimer, hf, hg1])
    · have hcF : task.completed = false ∧ task.incomplete = false := by
        constructor <;> [skip; skip] <;>
          (revert hg1; cases task.completed <;> cases task.incomplete <;> simp)
      by_cases hg2 : jsTruthyEnd task.timerEnd = true
      · exact Or.inl (by simp [startTimer, hf, hg1, hg2])
      · by_cases hz : (task.timerRemainingSeconds == 0 && task.timerSeconds != 0) = true
        · have hr : 0 < task.timerSeconds := by
            have := (Bool.and_eq_true _ _).mp hz
            have h2 := this.2
            simp at h2
            omega
          exact Or.inr ⟨task, task.timerSeconds, rfl, hcF.1, hcF.2, Or.inl rfl, hr,
            by simp [startTimer, hf, hg1, hg2, hz, hr]⟩
        · by_cases hr : 0 < task.timerRemainingSeconds
          · exact Or.inr ⟨task, task.timerRemainingSeconds, rfl, hcF.1, hcF.2,
              Or.inr rfl, hr, by simp [startTimer, hf, hg1, hg2, hz, hr]⟩
          · exact Or.inl (by simp [startTimer, hf, hg1, hg2, hz, hr])

theorem pauseTimer_cases (st : AppState) (id : Nat) (now : Int) :
    pauseTimer st id now = st
    ∨ ∃ task e, st.tasks.find? (fun t => t.id == id) = some task
        ∧ task.completed = false ∧ task.incomplete = false
        ∧ task.timerEnd = some e ∧ e ≠ 0
        ∧ pauseTimer st id now = saveTasks
            { st with
              tasks := replaceFirst st.tasks id
                  { task with
                    timerRemainingSeconds := (max 0 (jsRound1000 (e - now))).toNat
                    timerEnd := none } } := by
  cases hf : st.tasks.find? (fun t => t.id == id) with
  | none => exact Or.inl (by simp [pauseTimer, hf])
  | some task =>
    by_cases hg1 : (task.completed || task.incomplete) = true
    · exact Or.inl (by simp [pauseTimer, hf, hg1])
    · have hcF : task.completed = false ∧ task.incomplete = false := by
        constructor <;> [skip; skip] <;>
          (revert hg1; cases task.completed <;> cases task.incomplete <;> simp)
      cases hE : task.timerEnd with
      | none => exact Or.inl (by simp [pauseTimer, hf, hg1, hE, jsTruthyEnd])
      | some e =>
        by_cases he : e = 0
        · exact Or.inl (by simp [pauseTimer, hf, hg1, hE, jsTruthyEnd, he])
        · exact Or.inr ⟨task, e, rfl, hcF.1, hcF.2, hE, he,
            by simp [pauseTimer, hf, hg1, hE, jsTruthyEnd, he]⟩

theorem resetTimer_found {st : AppState} {id : Nat} {task : Task}
    (hf : st.tasks.find? (fun t => t.id == id) = some task) :
    resetTimer st id = saveTasks
      { st with
        tasks := replaceFirst st.tasks id
            { task with
              timerRemainingSeconds := task.timerSeconds
              timerEnd := none
              incomplete := false } } := by
  simp only [resetTimer, hf]

/-- The tasks component of a save/load round trip: each task survives with
only the `timerEnd || null` falsy-timestamp normalization applied. -/
theorem loadTasks_saveTasks_tasks (st : AppState) (now : Int) :
    (loadTasks (saveTasks st) now).tasks
      = st.tasks.map (fun t => { t with timerEnd := normTimerEnd t.timerEnd }) := by
  simp only [saveTasks, loadTasks, List.map_map]
  refine List.map_congr_left ?_
  intro t _
  exact normalize_toStored now t

/-- C7 (amended): `toggleTask` flips the completed flag of the task with the
given id; when the task becomes completed it also forces
`incomplete = false`, `timerEnd = null`, `timerRemainingSeconds = 0`, and
persists the collection; toggling the same existing id twice restores the
original completed value; when no task has the id the state is unchanged.
(The source function returns no failure indication - it has no return
statement at all; see the counterexample.) -/
theorem toggleTask_spec (st : AppState) (id : Nat) :
    (∀ task, st.tasks.find? (fun t => t.id == id) = some task →
      (toggleTask st id).tasks.find? (fun t => t.id == id) =
        some (if task.completed then { task with completed := false }
              else
                { task with
                  completed := true
                  incomplete := false
                  timerEnd := none
                  timerRemainingSeconds := 0 })
      ∧ (toggleTask st id).store =
          some (StoreVal.data ((toggleTask st id).tasks.map toStored))
      ∧ ((toggleTask (toggleTask st id) id).tasks.find? (fun t => t.id == id)).map
          (fun t => t.completed) = some task.completed)
    ∧ (st.tasks.find? (fun t => t.id == id) = none → toggleTask st id = st) := by
  constructor
  · intro task hf
    have hid : task.id = id := find?_id_eq hf
    have h1 := toggleTask_found hf
    have hid1 :
        (if task.completed then { task with completed := false }
         else
           { task with
             completed := true
             incomplete := false
             timerEnd := none
             timerRemainingSeconds := 0 } : Task).id = id := by
      by_cases hc : task.completed <;> simp [hc, hid]
    have hfind1 : (toggleTask st id).tasks.find? (fun t => t.id == id) =
        some (if task.completed then { task with completed := false }
              else
                { task with
                  completed := true
                  incomplete := false
                  timerEnd := none
                  timerRemainingSeconds := 0 }) := by
      rw [h1]
      simp only [saveTasks]
      exact find?_replaceFirst hf hid1
    refine ⟨hfind1, ?_, ?_⟩
    · rw [h1]
      simp [saveTasks]
    · have h2 := toggleTask_found hfind1
      have hid2 : ∀ u : Task,
          (if u.completed then { u with completed := false }
           else
             { u with
               completed := true
               incomplete := false
               timerEnd := none
               timerRemainingSeconds := 0 } : Task).id = u.id := by
        intro u
        by_cases hc : u.completed <;> simp [hc]
      have hfind2 := find?_replaceFirst hfind1 (by rw [hid2]; exact hid1)
      rw [h2]
      simp only [saveTasks]
      rw [hfind2]
      by_cases hc : task.completed <;> simp [hc]
  · intro hn
    simp only [toggleTask, hn]

def c7Task : Task :=
  { id := 1, text := "call mom", completed := false, createdAt := 0,
    timerSeconds := 0, timerRemainingSeconds := 0, timerEnd := none,
    incomplete := false }

def c7St : AppState := { tasks := [c7Task], taskId := 1, store := none }

/-- C7 counterexample: when no task has the requested id the collection is
indeed unchanged, but `toggleTask` returns no failure indication - the call
evaluates to exactly the same value (undefined) as a successful toggle of an
existing id, so the claimed failure return does not exist in the code. -/
theorem toggleTask_no_failure_indication :
    c7St.tasks.find? (fun t => t.id == 999) = none
    ∧ (toggleTask c7St 999).tasks = c7St.tasks
    ∧ toggleTaskReturn c7St 999 = toggleTaskReturn c7St 1
    ∧ toggleTaskReturn c7St 999 = none := by
  decide

/-- Witness for C7 (amended): toggling the sole task of a one-task state. -/
theorem toggleTask_spec_witness :
    c7St.tasks.find? (fun t => t.id == 1) = some c7Task
    ∧ ((toggleTask c7St 1).tasks.find? (fun t => t.id == 1) =
        some (if c7Task.completed then { c7Task with completed := false }
              else
                { c7Task with
                  completed := true
                  incomplete := false
                  timerEnd := none
                  timerRemainingSeconds := 0 })
      ∧ (toggleTask c7St 1).store =
          some (StoreVal.data ((toggleTask c7St 1).tasks.map toStored))
      ∧ ((toggleTask (toggleTask c7St 1) 1).tasks.find? (fun t => t.id == 1)).map
          (fun t => t.completed) = some c7Task.completed) :=
  ⟨by decide, (toggleTask_spec c7St 1).1 c7Task (by decide)⟩

/-- The data-model invariant of the spec: a completed task carries no
sticky-incomplete flag, no running timer, and no remaining duration. -/
def CompletedInv (t : Task) : Prop :=
  t.completed = true →
    t.incomplete = false ∧ t.timerEnd = none ∧ t.timerRemainingSeconds = 0

instance (t : Task) : Decidable (CompletedInv t) := by
  unfold CompletedInv
  infer_instance

/-- The invariant over the whole collection. -/
def StInv (st : AppState) : Prop := ∀ t ∈ st.tasks, CompletedInv t

instance (st : AppState) : Decidable (StInv st) := by
  unfold StInv
  exact List.decidableBAll _ _

def c5Task : Task :=
  { id := 1, text := "write tests", completed := true, createdAt := 0,
    timerSeconds := 60, timerRemainingSeconds := 0, timerEnd := none,
    incomplete := false }

def c5St : AppState := { tasks := [c5Task], taskId := 1, store := none }

/-- C5 counterexample: from a state satisfying the invariant (one completed
task with a configured 60-second timer), `resetTimer` - which the spec
permits on completed tasks - sets `timerRemainingSeconds = 60` while
`completed` stays true, so the invariant does not survive every operation. -/
theorem completed_invariant_cex :
    StInv c5St
    ∧ ¬ StInv (resetTimer c5St 1)
    ∧ ((resetTimer c5St 1).tasks.find? (fun t => t.id == 1)).map
        (fun t => (t.completed, t.timerRemainingSeconds)) = some (true, 60) := by
  decide

/-- C5 (amended): the invariant is preserved by `addTask`, `deleteTask`,
`toggleTask`, `clearCompleted`, `startTimer`, `pauseTimer`, `checkTimers`,
and by reloading a saved invariant state; `resetTimer` preserves it only
when the targeted task is not completed or has no configured timer
(`timerSeconds = 0`) - on a completed task with a nonzero `timerSeconds` it
restores `timerRemainingSeconds = timerSeconds` and breaks the invariant,
as the counterexample shows. -/
theorem completed_invariant_preserved (st : AppState) (hinv : StInv st) :
    (∀ text minutes now, StInv (addTask st text minutes now).1)
    ∧ (∀ id, StInv (deleteTask st id))
    ∧ (∀ id, StInv (toggleTask st id))
    ∧ StInv (clearCompleted st)
    ∧ (∀ id now, StInv (startTimer st id now))
    ∧ (∀ id now, StInv (pauseTimer st id now))
    ∧ (∀ now, StInv (checkTimers st now).1)
    ∧ (∀ id task, st.tasks.find? (fun t => t.id == id) = some task →
        task.completed = false ∨ task.timerSeconds = 0 →
        StInv (resetTimer st id))
    ∧ (∀ now, StInv (loadTasks (saveTasks st) now)) := by
  refine ⟨?_, ?_, ?_, ?_, ?_, ?_, ?_, ?_, ?_⟩
  · intro text minutes now
    by_cases h1 : jsTrim text = ""
    · simpa [addTask, h1] using hinv
    · by_cases h2 : (jsTrim text).length < 3
      · simpa [addTask, h1, h2] using hinv
      · by_cases h3 : (jsTrim text).length > 200
        · simpa [addTask, h1, h2, h3] using hinv
        · by_cases h4 : st.tasks.length ≥ MAX_TASKS
          · simpa [addTask, h1, h2, h3, h4] using hinv
          · by_cases h5 : isDuplicate st.tasks (jsTrim text) = true
            · simpa [addTask, h1, h2, h3, h4, h5] using hinv
            · have heq : (addTask st text minutes now).1 = saveTasks
                  { st with
                    tasks := st.tasks ++
                      [createTask st.taskId (jsTrim text)
                        (if minutes > 0 then minutes.toNat * 60 else 0) now]
                    taskId := st.taskId + 1 } := by
                simp [addTask, h1, h2, h3, h4, h5]
              rw [heq]
              intro t ht
              simp only [saveTasks] at ht
              rcases List.mem_append.mp ht with h | h
              · exact hinv t h
              · rw [List.mem_singleton.mp h]
                intro habs
                simp [createTask] at habs
  · intro id t ht
    simp only [deleteTask, saveTasks, List.mem_filter] at ht
    exact hinv t ht.1
  · intro id
    cases hf : st.tasks.find? (fun t => t.id == id) with
    | none => simpa [toggleTask, hf] using hinv
    | some task =>
      rw [toggleTask_found hf]
      intro t ht
      simp only [saveTasks] at ht
      rcases mem_replaceFirst ht with h | h
      · exact hinv t h
      · rw [h]
        by_cases hc : task.completed
        · simp only [if_pos hc]
          intro habs
          simp at habs
        · simp only [if_neg hc]
          exact fun _ => ⟨rfl, rfl, rfl⟩
  · intro t ht
    simp only [clearCompleted, saveTasks, List.mem_filter] at ht
    exact hinv t ht.1
  · intro id now
    rcases startTimer_cases st id now with h | ⟨task, rem, hf, hcF, _, _, _, heq⟩
    · rw [h]; exact hinv
    · rw [heq]
      intro t ht
      simp only [saveTasks] at ht
      rcases mem_replaceFirst ht with h | h
      · exact hinv t h
      · rw [h]
        intro habs
        simp only [] at habs
        rw [hcF] at habs
        exact absurd habs (by simp)
  · intro id now
    rcases pauseTimer_cases st id now with h | ⟨task, e, hf, hcF, _, _, _, heq⟩
    · rw [h]; exact hinv
    · rw [heq]
      intro t ht
      simp only [saveTasks] at ht
      rcases mem_replaceFirst ht with h | h
      · exact hinv t h
      · rw [h]
        intro habs
        simp only [] at habs
        rw [hcF] at habs
        exact absurd habs (by simp)
  · intro now
    intro t' ht'
    have htasks : (checkTimers st now).1.tasks
        = (st.tasks.map (checkOne now)).map Prod.fst := by
      simp only [checkTimers]
      split
      · simp [saveTasks]
      · rfl
    rw [htasks, List.map_map] at ht'
    obtain ⟨t, htmem, heq⟩ := List.mem_map.mp ht'
    cases hE : t.timerEnd with
    | none =>
      have hsame : (checkOne now t).1 = t := by simp [checkOne, hE]
      rw [← heq]
      simp only [Function.comp]
      rw [hsame]
      exact hinv t htmem
    | some e =>
      by_cases hcnd : e ≠ 0 ∧ t.completed = false ∧ t.incomplete = false ∧ e ≤ now
      · have hx : (checkOne now t).1 = expireNow t := by simp [checkOne, hE, hcnd]
        rw [← heq]
        simp only [Function.comp]
        rw [hx]
        intro habs
        simp only [expireNow] at habs
        rw [hcnd.2.1] at habs
        exact absurd habs (by simp)
      · have hsame : (checkOne now t).1 = t := by simp [checkOne, hE, hcnd]
        rw [← heq]
        simp only [Function.comp]
        rw [hsame]
        exact hinv t htmem
  · intro id task hf hcond
    rw [resetTimer_found hf]
    intro t ht
    simp only [saveTasks] at ht
    rcases mem_replaceFirst ht with h | h
    · exact hinv t h
    · rw [h]
      intro hcomp
      simp only [] at hcomp
      rcases hcond with hc | hc
      · rw [hc] at hcomp
        exact absurd hcomp (by simp)
      · exact ⟨rfl, rfl, hc⟩
  · intro now
    intro t ht
    rw [loadTasks_saveTasks_tasks st now] at ht
    obtain ⟨u, hu, hequ⟩ := List.mem_map.mp ht
    rw [← hequ]
    intro hcomp
    simp only [] at hcomp
    have hu' := hinv u hu hcomp
    refine ⟨hu'.1, ?_, hu'.2.2⟩
    simp [hu'.2.1, normTimerEnd]

def c5GoodTask : Task :=
  { id := 2, text := "water plants", completed := false, createdAt := 0,
    timerSeconds := 120, timerRemainingSeconds := 45, timerEnd := none,
    incomplete := false }

def c5WSt : AppState := { tasks := [c5Task, c5GoodTask], taskId := 2, store := none }

/-- Witness for C5 (amended): a two-task invariant state (one completed, one
active with a paused timer) stays invariant under every listed operation. -/
theorem completed_invariant_preserved_witness :
    StInv c5WSt
    ∧ ((∀ text minutes now, StInv (addTask c5WSt text minutes now).1)
      ∧ (∀ id, StInv (deleteTask c5WSt id))
      ∧ (∀ id, StInv (toggleTask c5WSt id))
      ∧ StInv (clearCompleted c5WSt)
      ∧ (∀ id now, StInv (startTimer c5WSt id now))
      ∧ (∀ id now, StInv (pauseTimer c5WSt id now))
      ∧ (∀ now, StInv (checkTimers c5WSt now).1)
      ∧ (∀ id task, c5WSt.tasks.find? (fun t => t.id == id) = some task →
          task.completed = false ∨ task.timerSeconds = 0 →
          StInv (resetTimer c5WSt id))
      ∧ (∀ now, StInv (loadTasks (saveTasks c5WSt) now))) :=
  ⟨by decide, completed_invariant_preserved c5WSt (by decide)⟩

/-- The expiry condition exactly as the specification states it: `timerEnd`
is non-null, the task is neither completed nor already incomplete, and
`now ≥ timerEnd`. -/
def specExpires (t : Task) (now : Int) : Bool :=
  match t.timerEnd with
  | none => false
  | some e => !t.completed && !t.incomplete && decide (e ≤ now)

theorem checkOne_eq_specExpires {t : Task} (now : Int) (hwf : t.timerEnd ≠ some 0) :
    checkOne now t =
      (if specExpires t now then (expireNow t, some ("Timer expired: " ++ t.text))
       else (t, none)) := by
  cases hE : t.timerEnd with
  | none => simp [checkOne, specExpires, hE]
  | some e =>
    have he : e ≠ 0 := fun h0 => hwf (by rw [hE, h0])
    cases hc : t.completed <;> cases hi : t.incomplete <;>
      by_cases hle : e ≤ now <;>
        simp [checkOne, specExpires, hE, he, hc, hi, hle]

theorem checkList_fst (now : Int) : ∀ ts : List Task,
    (∀ t ∈ ts, t.timerEnd ≠ some 0) →
    (ts.map (checkOne now)).map Prod.fst
      = ts.map (fun t => if specExpires t now then expireNow t else t) := by
  intro ts
  induction ts with
  | nil => intro _; rfl
  | cons t rest ih =>
    intro h
    have ht := h t (List.mem_cons_self _ _)
    have hrest := fun u hu => h u (List.mem_cons_of_mem _ hu)
    simp only [List.map]
    rw [ih hrest]
    rw [checkOne_eq_specExpires now ht]
    by_cases hs : specExpires t now = true <;> simp [hs]

theorem checkList_snd (now : Int) : ∀ ts : List Task,
    (∀ t ∈ ts, t.timerEnd ≠ some 0) →
    (ts.map (checkOne now)).filterMap Prod.snd
      = (ts.filter (fun t => specExpires t now)).map
          (fun t => "Timer expired: " ++ t.text) := by
  intro ts
  induction ts with
  | nil => intro _; rfl
  | cons t rest ih =>
    intro h
    have ht := h t (List.mem_cons_self _ _)
    have hrest := fun u hu => h u (List.mem_cons_of_mem _ hu)
    rw [List.map_cons, List.filterMap_cons, checkOne_eq_specExpires now ht]
    by_cases hs : specExpires t now = true
    · simp [hs, ih hrest]
    · simp [hs, ih hrest]

/-- C4: one sweep of the timer check expires exactly the tasks satisfying
the spec condition (non-null `timerEnd`, not completed, not already
incomplete, `now ≥ timerEnd`) - setting `incomplete = true`,
`timerEnd = null`, `timerRemainingSeconds = 0` - leaves every other task
unchanged, emits exactly one notification per expiring task (its text
included) in collection order, and never notifies a task that is already
incomplete.  The well-formedness hypothesis rules out the unreachable falsy
timestamp `timerEnd = 0`, which JavaScript truthiness would skip. -/
theorem checkTimers_spec (st : AppState) (now : Int)
    (hwf : ∀ t ∈ st.tasks, t.timerEnd ≠ some 0) :
    (checkTimers st now).1.tasks
        = st.tasks.map (fun t => if specExpires t now then expireNow t else t)
    ∧ (checkTimers st now).2
        = (st.tasks.filter (fun t => specExpires t now)).map
            (fun t => "Timer expired: " ++ t.text)
    ∧ (∀ t : Task, (expireNow t).incomplete = true ∧ (expireNow t).timerEnd = none
        ∧ (expireNow t).timerRemainingSeconds = 0 ∧ (expireNow t).text = t.text)
    ∧ (∀ t : Task, ∀ m : Int, t.incomplete = true → checkOne m t = (t, none)) := by
  refine ⟨?_, ?_, ?_, ?_⟩
  · have htasks : (checkTimers st now).1.tasks
        = (st.tasks.map (checkOne now)).map Prod.fst := by
      simp only [checkTimers]
      split
      · simp [saveTasks]
      · rfl
    rw [htasks]
    exact checkList_fst now st.tasks hwf
  · have h2 : (checkTimers st now).2
        = (st.tasks.map (checkOne now)).filterMap Prod.snd := rfl
    rw [h2]
    exact checkList_snd now st.tasks hwf
  · intro t
    exact ⟨rfl, rfl, rfl, rfl⟩
  · intro t m hi
    cases hE : t.timerEnd with
    | none => simp [checkOne, hE]
    | some e => simp [checkOne, hE, hi]

def c4Task : Task :=
  { id := 1, text := "write report", completed := false, createdAt := 0,
    timerSeconds := 60, timerRemainingSeconds := 60, timerEnd := some 60000,
    incomplete := false }

def c4St : AppState := { tasks := [c4Task], taskId := 1, store := none }

/-- Witness for C4: a 60-second timer started at t0 = 0 (so
`timerEnd = 60000`), checked at t0 + 61000, expires with exactly one
notification carrying the task text. -/
theorem checkTimers_spec_witness :
    (∀ t ∈ c4St.tasks, t.timerEnd ≠ some 0)
    ∧ (checkTimers c4St 61000).1.tasks =
        [{ c4Task with
           incomplete := true
           timerEnd := none
           timerRemainingSeconds := 0 }]
    ∧ (checkTimers c4St 61000).2 = ["Timer expired: write report"] :=
  ⟨by decide,
    ((checkTimers_spec c4St 61000 (by decide)).1).trans (by decide),
    ((checkTimers_spec c4St 61000 (by decide)).2.1).trans (by decide)⟩

/-- C9: for a running task whose deadline has already passed
(`now ≥ timerEnd`, task neither completed nor incomplete), `pauseTimer`
called before the next expiry sweep stores `timerRemainingSeconds = 0`
(since `max(0, round((timerEnd - now)/1000)) = 0`) and clears `timerEnd`,
leaving `incomplete = false`; the paused task then never matches the expiry
check (no notification is ever emitted for it), and a later `startTimer`
restores the full original `timerSeconds` duration. -/
theorem pause_expired_bypasses_incomplete (st : AppState) (id : Nat) (task : Task)
    (e now now2 now3 : Int)
    (hf : st.tasks.find? (fun t => t.id == id) = some task)
    (hE : task.timerEnd = some e) (he : e ≠ 0)
    (hc : task.completed = false) (hi : task.incomplete = false)
    (hexp : e ≤ now) (hS : 0 < task.timerSeconds) :
    (pauseTimer st id now).tasks.find? (fun t => t.id == id)
        = some { task with timerRemainingSeconds := 0, timerEnd := none }
    ∧ ({ task with timerRemainingSeconds := 0, timerEnd := none } : Task).incomplete
        = false
    ∧ checkOne now2 { task with timerRemainingSeconds := 0, timerEnd := none }
        = ({ task with timerRemainingSeconds := 0, timerEnd := none }, none)
    ∧ (startTimer (pauseTimer st id now) id now3).tasks.find? (fun t => t.id == id)
        = some { task with
                 timerRemainingSeconds := task.timerSeconds
                 timerEnd := some (now3 + (task.timerSeconds : Int) * 1000) } := by
  have hid : task.id = id := find?_id_eq hf
  have hrem : (max 0 (jsRound1000 (e - now))).toNat = 0 :=
    max_toNat_zero (jsRound1000_nonpos (by omega))
  have hg1 : ¬((task.completed || task.incomplete) = true) := by simp [hc, hi]
  have heq : pauseTimer st id now = saveTasks
      { st with
        tasks := replaceFirst st.tasks id
            { task with timerRemainingSeconds := 0, timerEnd := none } } := by
    have hstep : pauseTimer st id now = saveTasks
        { st with
          tasks := replaceFirst st.tasks id
              { task with
                timerRemainingSeconds := (max 0 (jsRound1000 (e - now))).toNat
                timerEnd := none } } := by
      simp [pauseTimer, hf, hg1, hE, jsTruthyEnd, he]
    rw [hstep, hrem]
  have hfind1 : (pauseTimer st id now).tasks.find? (fun t => t.id == id)
      = some { task with timerRemainingSeconds := 0, timerEnd := none } := by
    rw [heq]
    simp only [saveTasks]
    exact find?_replaceFirst hf hid
  refine ⟨hfind1, hi, rfl, ?_⟩
  have hS' : task.timerSeconds ≠ 0 := by omega
  have heq2 : startTimer (pauseTimer st id now) id now3 = saveTasks
      { (pauseTimer st id now) with
        tasks := replaceFirst (pauseTimer st id now).tasks id
            { task with
              timerRemainingSeconds := task.timerSeconds
              timerEnd := some (now3 + (task.timerSeconds : Int) * 1000) } } := by
    simp [startTimer, hfind1, hc, hi, hS, hS', jsTruthyEnd]
  rw [heq2]
  simp only [saveTasks]
  exact find?_replaceFirst hfind1 hid

def c9Task : Task :=
  { id := 1, text := "stretch break", completed := false, createdAt := 0,
    timerSeconds := 60, timerRemainingSeconds := 60, timerEnd := some 60000,
    incomplete := false }

def c9St : AppState := { tasks := [c9Task], taskId := 1, store := none }

/-- Witness for C9: the 60-second task whose deadline 60000 has passed is
paused at 75000 - remaining drops to 0, `incomplete` stays false, the expiry
sweep at 76000 ignores it, and restarting at 80000 runs the full 60 seconds
again. -/
theorem pause_expired_bypasses_incomplete_witness :
    (c9St.tasks.find? (fun t => t.id == 1) = some c9Task
      ∧ c9Task.timerEnd = some 60000 ∧ (60000 : Int) ≤ 75000
      ∧ 0 < c9Task.timerSeconds)
    ∧ ((pauseTimer c9St 1 75000).tasks.find? (fun t => t.id == 1)
        = some { c9Task with timerRemainingSeconds := 0, timerEnd := none }
      ∧ ({ c9Task with timerRemainingSeconds := 0, timerEnd := none } : Task).incomplete
          = false
      ∧ checkOne 76000 { c9Task with timerRemainingSeconds := 0, timerEnd := none }
          = ({ c9Task with timerRemainingSeconds := 0, timerEnd := none }, none)
      ∧ (startTimer (pauseTimer c9St 1 75000) 1 80000).tasks.find?
            (fun t => t.id == 1)
          = some { c9Task with
                   timerRemainingSeconds := c9Task.timerSeconds
                   timerEnd := some (80000 + (c9Task.timerSeconds : Int) * 1000) }) :=
  ⟨⟨by decide, by decide, by decide, by decide⟩,
    pause_expired_bypasses_incomplete c9St 1 c9Task 60000 75000 76000 80000
      (by decide) (by decide) (by decide) (by decide) (by decide) (by decide)
      (by decide)⟩

/-- The inductive timer bound at wall-clock time `clock`: the stored
remaining duration never exceeds the configured one, and a running deadline
lies at most `timerSeconds` seconds in the future. -/
def TimerInvB (t : Task) (clock : Int) : Bool :=
  decide (t.timerRemainingSeconds ≤ t.timerSeconds) &&
    (match t.timerEnd with
     | none => true
     | some e => decide (e ≤ clock + (t.timerSeconds : Int) * 1000))

/-- A user-driven timer event carrying its wall-clock time. -/
inductive TimerOp where
  | start : Int → TimerOp
  | pause : Int → TimerOp
deriving DecidableEq

def opTime : TimerOp → Int
  | TimerOp.start n => n
  | TimerOp.pause n => n

def applyOp (id : Nat) (st : AppState) : TimerOp → AppState
  | TimerOp.start n => startTimer st id n
  | TimerOp.pause n => pauseTimer st id n

def applyOps (id : Nat) (st : AppState) : List TimerOp → AppState
  | [] => st
  | op :: rest => applyOps id (applyOp id st op) rest

/-- The event times are non-decreasing, starting no earlier than `clock`. -/
def monoFromB (clock : Int) : List TimerOp → Bool
  | [] => true
  | op :: rest => decide (clock ≤ opTime op) && monoFromB (opTime op) rest

theorem timerInvB_rem {t : Task} {c : Int} (h : TimerInvB t c = true) :
    t.timerRemainingSeconds ≤ t.timerSeconds :=
  of_decide_eq_true ((Bool.and_eq_true _ _).mp h).1

theorem timerInvB_end {t : Task} {c e : Int} (h : TimerInvB t c = true)
    (hE : t.timerEnd = some e) : e ≤ c + (t.timerSeconds : Int) * 1000 := by
  have h2 := ((Bool.and_eq_true _ _).mp h).2
  rw [hE] at h2
  exact of_decide_eq_true h2

theorem timerInvB_of_parts {t : Task} {c : Int}
    (h1 : t.timerRemainingSeconds ≤ t.timerSeconds)
    (h2 : ∀ e, t.timerEnd = some e → e ≤ c + (t.timerSeconds : Int) * 1000) :
    TimerInvB t c = true := by
  refine (Bool.and_eq_true _ _).mpr ⟨decide_eq_true h1, ?_⟩
  cases hE : t.timerEnd with
  | none => rfl
  | some e => exact decide_eq_true (h2 e hE)

theorem timerInvB_mono {t : Task} {c c' : Int} (h : TimerInvB t c = true)
    (hcc : c ≤ c') : TimerInvB t c' = true := by
  refine timerInvB_of_parts (timerInvB_rem h) ?_
  intro e hE
  have := timerInvB_end h hE
  omega

theorem startTimer_inv (st : AppState) (id : Nat) (n c : Int)
    (hinv : ∀ t ∈ st.tasks, TimerInvB t c = true) (hcn : c ≤ n) :
    ∀ t ∈ (startTimer st id n).tasks, TimerInvB t n = true := by
  rcases startTimer_cases st id n with h | ⟨task, rem, hf, _, _, hrem, _, heq⟩
  · rw [h]
    exact fun t ht => timerInvB_mono (hinv t ht) hcn
  · rw [heq]
    intro t ht
    simp only [saveTasks] at ht
    rcases mem_replaceFirst ht with h | h
    · exact timerInvB_mono (hinv t h) hcn
    · rw [h]
      have htask := hinv task (mem_of_find? hf)
      have hrle : rem ≤ task.timerSeconds := by
        rcases hrem with h1 | h1
        · omega
        · have := timerInvB_rem htask
          omega
      refine timerInvB_of_parts hrle ?_
      intro e hEe
      dsimp only at hEe ⊢
      have he : n + (rem : Int) * 1000 = e := Option.some.inj hEe
      omega

theorem pauseTimer_inv (st : AppState) (id : Nat) (n c : Int)
    (hinv : ∀ t ∈ st.tasks, TimerInvB t c = true) (hcn : c ≤ n) :
    ∀ t ∈ (pauseTimer st id n).tasks, TimerInvB t n = true := by
  rcases pauseTimer_cases st id n with h | ⟨task, e, hf, _, _, hE, _, heq⟩
  · rw [h]
    exact fun t ht => timerInvB_mono (hinv t ht) hcn
  · rw [heq]
    intro t ht
    simp only [saveTasks] at ht
    rcases mem_replaceFirst ht with h | h
    · exact timerInvB_mono (hinv t h) hcn
    · rw [h]
      have htask := hinv task (mem_of_find? hf)
      have hEb := timerInvB_end htask hE
      have hbound : jsRound1000 (e - n) ≤ (task.timerSeconds : Int) :=
        jsRound1000_le (by omega)
      refine timerInvB_of_parts (max_toNat_le hbound) ?_
      intro e' hE'
      exact absurd hE' (by simp)

theorem startTimer_proj (st : AppState) (id : Nat) (n : Int) :
    (startTimer st id n).tasks.map (fun t => (t.id, t.timerSeconds))
      = st.tasks.map (fun t => (t.id, t.timerSeconds)) := by
  rcases startTimer_cases st id n with h | ⟨task, rem, hf, _, _, _, _, heq⟩
  · rw [h]
  · rw [heq]
    simp only [saveTasks]
    exact map_replaceFirst _ hf rfl

theorem pauseTimer_proj (st : AppState) (id : Nat) (n : Int) :
    (pauseTimer st id n).tasks.map (fun t => (t.id, t.timerSeconds))
      = st.tasks.map (fun t => (t.id, t.timerSeconds)) := by
  rcases pauseTimer_cases st id n with h | ⟨task, e, hf, _, _, _, _, heq⟩
  · rw [h]
  · rw [heq]
    simp only [saveTasks]
    exact map_replaceFirst _ hf rfl

theorem applyOps_inv (id : Nat) : ∀ (ops : List TimerOp) (st : AppState) (c : Int),
    (∀ t ∈ st.tasks, TimerInvB t c = true) → monoFromB c ops = true →
    (∀ t ∈ (applyOps id st ops).tasks, t.timerRemainingSeconds ≤ t.timerSeconds)
    ∧ (applyOps id st ops).tasks.map (fun t => (t.id, t.timerSeconds))
        = st.tasks.map (fun t => (t.id, t.timerSeconds)) := by
  intro ops
  induction ops with
  | nil =>
    intro st c h _
    exact ⟨fun t ht => timerInvB_rem (h t ht), rfl⟩
  | cons op rest ih =>
    intro st c h hm
    rcases (Bool.and_eq_true _ _).mp hm with ⟨hm1, hm2⟩
    have hle := of_decide_eq_true hm1
    cases op with
    | start n =>
      have h' := startTimer_inv st id n c h hle
      have hres := ih (startTimer st id n) n h' hm2
      exact ⟨hres.1, hres.2.trans (startTimer_proj st id n)⟩
    | pause n =>
      have h' := pauseTimer_inv st id n c h hle
      have hres := ih (pauseTimer st id n) n h' hm2
      exact ⟨hres.1, hres.2.trans (pauseTimer_proj st id n)⟩

/-- C6: starting from any state whose tasks satisfy the timer bound at time
`c` (in particular a state holding a freshly created task, last conjunct),
any sequence of `startTimer`/`pauseTimer` events at non-decreasing times
keeps every task's `timerRemainingSeconds` at or below its own (unchanged)
`timerSeconds`: pause stores `max(0, round((timerEnd - now)/1000))`, start's
reset-remaining-when-zero branch restores at most `timerSeconds`, so pause
then start then pause again never exceeds the original duration. -/
theorem timerRemaining_never_exceeds (id : Nat) (ops : List TimerOp)
    (st : AppState) (c : Int)
    (hinv : ∀ t ∈ st.tasks, TimerInvB t c = true)
    (hmono : monoFromB c ops = true) :
    (∀ t ∈ (applyOps id st ops).tasks, t.timerRemainingSeconds ≤ t.timerSeconds)
    ∧ (applyOps id st ops).tasks.map (fun t => (t.id, t.timerSeconds))
        = st.tasks.map (fun t => (t.id, t.timerSeconds))
    ∧ (∀ nid text S n0, TimerInvB (createTask nid text S n0) n0 = true) := by
  refine ⟨(applyOps_inv id ops st c hinv hmono).1,
    (applyOps_inv id ops st c hinv hmono).2, ?_⟩
  intro nid text S n0
  refine timerInvB_of_parts le_rfl ?_
  intro e hEe
  simp only [createTask] at hEe ⊢
  by_cases hS : S > 0
  · rw [if_pos hS] at hEe
    have := Option.some.inj hEe
    omega
  · rw [if_neg hS] at hEe
    exact absurd hEe (by simp)

def c6Task : Task :=
  { id := 1, text := "deep work", completed := false, createdAt := 5000,
    timerSeconds := 60, timerRemainingSeconds := 60, timerEnd := some 65000,
    incomplete := false }

def c6St : AppState := { tasks := [c6Task], taskId := 1, store := none }

def c6Ops : List TimerOp :=
  [TimerOp.pause 15400, TimerOp.start 20000, TimerOp.pause 30000]

/-- Witness for C6: a 60-second task started at 5000, paused at 15400,
restarted at 20000 and paused again at 30000 never exceeds 60 remaining
seconds and keeps its configured duration. -/
theorem timerRemaining_never_exceeds_witness :
    (∀ t ∈ c6St.tasks, TimerInvB t 5000 = true)
    ∧ monoFromB 5000 c6Ops = true
    ∧ ((∀ t ∈ (applyOps 1 c6St c6Ops).tasks,
          t.timerRemainingSeconds ≤ t.timerSeconds)
      ∧ (applyOps 1 c6St c6Ops).tasks.map (fun t => (t.id, t.timerSeconds))
          = c6St.tasks.map (fun t => (t.id, t.timerSeconds))
      ∧ (∀ nid text S n0, TimerInvB (createTask nid text S n0) n0 = true)) :=
  ⟨by decide, by decide,
    timerRemaining_never_exceeds 1 c6Ops c6St 5000 (by decide) (by decide)⟩

end TaskMgr
